import Mathlib

/-
Shallow embedding of an Ant System TSP solver (files environment.py, ant.py,
ant-colony.py).  Cities are natural-number TSPLIB node identifiers, real
arithmetic is modelled on the rationals, Python dictionaries are modelled as
association lists or as total functions with the read default of the dictionary,
and the two fallible operations (dictionary indexing, division) are modelled
with Except where a claim depends on their failure behaviour.
-/

namespace ACO

/-- Cities are identified by natural numbers (TSPLIB node ids). -/
abbrev City := ℕ

/-- the Python builtin round, modelled on the rationals: round half to even
(round half up and round half down resolved toward the even integer), as used by Environment.__init__ (environment.py line 36). -/
def pythonRound (q : ℚ) : ℤ :=
  if q - ⌊q⌋ < 1/2 then ⌊q⌋
  else if 1/2 < q - ⌊q⌋ then ⌊q⌋ + 1
  else if Even ⌊q⌋ then ⌊q⌋ else ⌊q⌋ + 1

/-- ATT pseudo-Euclidean distance of environment.py lines 32-40: the squared
coordinate differences are divided by 10, passed to math.sqrt (modelled by the
parameter sqrtF), rounded with Python round, and corrected upward by one when
the rounded value fell below the real value. -/
def attDist (sqrtF : ℚ → ℚ) (coords : City → ℚ × ℚ) (i j : City) : ℤ :=
  let xd := (coords i).1 - (coords j).1
  let yd := (coords i).2 - (coords j).2
  let rij := sqrtF ((xd ^ 2 + yd ^ 2) / 10)
  let tij := pythonRound rij
  if (tij : ℚ) < rij then tij + 1 else tij

/-- Lookup in an association list, the model of Python dict.get with a default
of none: first matching key wins. -/
def dictGet : List ((City × City) × ℤ) → City × City → Option ℤ
  | [], _ => none
  | (k, v) :: rest, key => if k = key then some v else dictGet rest key

/-- Distance dictionary built by the double loop of Environment.__init__
(environment.py lines 25-42): one entry per ordered pair of distinct nodes. -/
def buildDistances (nodes : List City) (att : City → City → ℤ) :
    List ((City × City) × ℤ) :=
  nodes.flatMap fun i => (nodes.filter fun j => i ≠ j).map fun j => ((i, j), att i j)

/-- Environment.get_distance (environment.py lines 121-122): a dictionary read
with the float infinity default, modelled as WithTop with top for the infinity. -/
def get_distance (nodes : List City) (att : City → City → ℤ) (i j : City) :
    WithTop ℤ :=
  match dictGet (buildDistances nodes att) (i, j) with
  | some t => (t : WithTop ℤ)
  | none => ⊤

/-- Pheromone map: total-function view of the pheromone dictionary; reads of
absent keys default to 0, matching the dict.get default used by the reader
(ant.py line 98). -/
abbrev PheromoneMap := City × City → ℚ

/-- Cyclic consecutive pairs of a tour: the pair (tour[i], tour[(i+1) % len])
for each index i, including the wrap-around pair (environment.py
lines 104-106). -/
def cyclicPairs (tour : List City) : List (City × City) :=
  tour.zip (tour.rotate 1)

/-- Addition of delta to both directed copies of one tour edge, first the write
to (from, to) and then the write to (to, from), as in environment.py
lines 109-110; the two sequential dictionary writes are inlined. -/
def depositEdge (pm : PheromoneMap) (e : City × City) (delta : ℚ) : PheromoneMap :=
  fun f =>
    if f = (e.2, e.1) then (if f = e then pm f + delta else pm f) + delta
    else (if f = e then pm f + delta else pm f)

/-- Deposit of one ant tour: delta = 1 / tour_length is added on both
directions of every cyclic edge of the tour (environment.py lines 99-110). -/
def depositTour (pm : PheromoneMap) (tour : List City) (tourLength : ℚ) :
    PheromoneMap :=
  (cyclicPairs tour).foldl (fun m e => depositEdge m e (1 / tourLength)) pm

/-- Environment.update_pheromone_map (environment.py lines 84-110): full
evaporation by the factor (1 - rho) on every edge, then deposits for each
tour in batch order. -/
def update_pheromone_map (pm : PheromoneMap) (rho : ℚ)
    (batch : List (List City × ℚ)) : PheromoneMap :=
  batch.foldl (fun m tl => depositTour m tl.1 tl.2) (fun e => (1 - rho) * pm e)

/-- Python division: raises ZeroDivisionError when the denominator is zero,
modelled as an Except value. -/
def pyDiv (a b : ℚ) : Except String ℚ :=
  if b = 0 then Except.error "ZeroDivisionError: float division by zero"
  else Except.ok (a / b)

/-- Deposit loop of Environment.update_pheromone_map with Python division
semantics explicit: computing delta = 1.0 / tour_length is fallible and an
error aborts the remaining batch. -/
def updateLoopE (batch : List (List City × ℚ)) (m : PheromoneMap) :
    Except String PheromoneMap :=
  match batch with
  | [] => Except.ok m
  | (tour, tourLength) :: rest =>
    match pyDiv 1 tourLength with
    | Except.error msg => Except.error msg
    | Except.ok delta =>
      updateLoopE rest ((cyclicPairs tour).foldl (fun m2 e => depositEdge m2 e delta) m)

/-- Environment.update_pheromone_map under the fallible-division model:
evaporation first, then the deposit loop. -/
def update_pheromone_mapE (pm : PheromoneMap) (rho : ℚ)
    (batch : List (List City × ℚ)) : Except String PheromoneMap :=
  updateLoopE batch (fun e => (1 - rho) * pm e)

/-- Multiplicity-counting total deposit received by the ordered edge e: each
tour of length L contributes 1/L for every time it traverses e in either
direction among its cyclic pairs. -/
def totalDeposit (batch : List (List City × ℚ)) (e : City × City) : ℚ :=
  (batch.map fun tl =>
    (((cyclicPairs tl.1).count e : ℚ) + ((cyclicPairs tl.1).count (e.2, e.1) : ℚ))
      * (1 / tl.2)).sum

/-- Deposit as worded by the specification sentence under scrutiny: each tour
of length L that traverses the undirected edge at all contributes 1/L once. -/
def specDeposit (batch : List (List City × ℚ)) (e : City × City) : ℚ :=
  (batch.map fun tl =>
    if e ∈ cyclicPairs tl.1 ∨ (e.2, e.1) ∈ cyclicPairs tl.1 then 1 / tl.2 else 0).sum

/-- First element of the list minimizing the distance from c, the model of the
Python min call over the unvisited collection (environment.py line 66):
the Python min call keeps the earliest element among ties. -/
def selectMin (d : City → City → ℚ) (c : City) : List City → City
  | [] => c
  | x :: xs => xs.foldl (fun best y => if d c y < d c best then y else best) x

/-- While loop of Environment.initialize_pheromone_map (environment.py
lines 65-69): repeatedly walk to the nearest unvisited city, accumulating the
travelled length; the fuel argument is instantiated with the number of
unvisited cities, which the loop consumes one per step. -/
def nnGo (d : City → City → ℚ) : Nat → City → List City → ℚ → City × ℚ
  | 0, c, _, acc => (c, acc)
  | _ + 1, c, [], acc => (c, acc)
  | fuel + 1, c, x :: xs, acc =>
    let nxt := selectMin d c (x :: xs)
    nnGo d fuel nxt ((x :: xs).erase nxt) (acc + d c nxt)

/-- Length of the greedy nearest-neighbor tour computed by
Environment.initialize_pheromone_map (environment.py lines 55-72): start at
the first node, walk greedily through the rest, close the cycle back to the
start. -/
def nnTourLength (d : City → City → ℚ) (nodes : List City) : ℚ :=
  match nodes with
  | [] => 0
  | start :: rest =>
    let fin := nnGo d rest.length start rest 0
    fin.2 + d fin.1 start

/-- Environment.initialize_pheromone_map (environment.py lines 49-81): every
ordered pair of distinct nodes receives the identical initial value
1 / (n * Lnn); pairs outside the dictionary read as the default 0. -/
def initialize_pheromone_map (d : City → City → ℚ) (nodes : List City) :
    PheromoneMap :=
  fun e =>
    if e.1 ∈ nodes ∧ e.2 ∈ nodes ∧ e.1 ≠ e.2 then
      1 / (nodes.length * nnTourLength d nodes)
    else 0

/-- Mutable per-ant state of ant.py (lines 13-19): current location,
accumulated distance, tour list, and visited set. -/
structure AntState where
  current_location : City
  traveled_distance : ℚ
  tour : List City
  visited_locations : Finset City
deriving DecidableEq

/-- Ant.visit (ant.py lines 167-180): when the location differs from the
current one, add the edge distance, move, and extend tour and visited set;
otherwise do nothing. -/
def visit (d : City → City → ℚ) (s : AntState) (location : City) : AntState :=
  if location ≠ s.current_location then
    { current_location := location
      traveled_distance := s.traveled_distance + d s.current_location location
      tour := s.tour ++ [location]
      visited_locations := insert location s.visited_locations }
  else s

/-- Fresh per-ant state at a starting city: the state produced both by the
reset of Ant.run (ant.py lines 40-44) and by the pre-loop initialization of
AntColony.solve (ant-colony.py lines 70-74). -/
def mkAnt (start : City) : AntState :=
  { current_location := start
    traveled_distance := 0
    tour := [start]
    visited_locations := {start} }

/-- Construction loop of Ant.run (ant.py lines 50-55): while some location is
unvisited, pick the next location with the oracle choose, which models the
weighted random draw of Ant.select_path, and visit it.  The fuel argument is
instantiated with the number of locations, an upper bound on the number of
loop iterations. -/
def runLoop (d : City → City → ℚ) (nodes : List City) (choose : AntState → City) :
    Nat → AntState → AntState
  | 0, s => s
  | fuel + 1, s =>
    if s.visited_locations.card < nodes.length then
      runLoop d nodes choose fuel (visit d s (choose s))
    else s

/-- Reset step of Ant.run (ant.py lines 38-44): when more than one location
has been visited, the state is reset to a fresh state at tour[0]; mkAnt
carries exactly the four assignments of the source (tour = [start],
visited = singleton of start, current = start, distance = 0). -/
def resetIfNeeded (s : AntState) : AntState :=
  if 1 < s.visited_locations.card then mkAnt s.tour.headI else s

/-- Closing step of Ant.run (ant.py lines 57-60): when the final location
differs from tour[0], the closing-edge distance is added to the travelled
distance. -/
def closeTour (d : City → City → ℚ) (s : AntState) : AntState :=
  if s.current_location ≠ s.tour.headI then
    { s with traveled_distance :=
        s.traveled_distance + d s.current_location s.tour.headI }
  else s

/-- Ant.run (ant.py lines 23-62): reset when a previous tour was completed,
run the construction loop until every location is visited, then add the
closing-edge distance.  The returned pair of Ant.run is (tour,
traveled_distance) of the resulting state. -/
def run (d : City → City → ℚ) (nodes : List City) (choose : AntState → City)
    (s : AntState) : AntState :=
  closeTour d (runLoop d nodes choose nodes.length (resetIfNeeded s))

/-- Sum of the distances between consecutive cities of a path (no closing
edge). -/
def pathDistance (d : City → City → ℚ) : List City → ℚ
  | [] => 0
  | [_] => 0
  | a :: b :: rest => d a b + pathDistance d (b :: rest)

/-- Abstract specification of Ant.select_path (ant.py lines 65-131): whenever
an unvisited location exists, the returned location is an unvisited node.
This is exactly what the weighted random draw guarantees, because the
candidate list ranges over the unvisited locations only. -/
def ChooseUnvisited (nodes : List City) (choose : AntState → City) : Prop :=
  ∀ s : AntState, (∃ x ∈ nodes, x ∉ s.visited_locations) →
    choose s ∈ nodes ∧ choose s ∉ s.visited_locations

/-- Invariant of the ant state during tour construction: the tour is a
nonempty duplicate-free list of nodes, the visited set is exactly the set of
tour members, the current location is the last tour entry, and the travelled
distance is the path distance of the tour. -/
def AntInv (d : City → City → ℚ) (nodes : List City) (s : AntState) : Prop :=
  s.tour ≠ [] ∧ s.tour.Nodup ∧ (∀ c ∈ s.tour, c ∈ nodes) ∧
    s.visited_locations = s.tour.toFinset ∧
    s.tour.getLast? = some s.current_location ∧
    s.traveled_distance = pathDistance d s.tour

/-- Per-ant evolution across the iteration loop of AntColony.solve
(ant-colony.py lines 77-86): inside the loop the only mutation of a per-ant
state is the call to Ant.run, once per iteration; starting cities are never
reassigned there. -/
def solveIterate (d : City → City → ℚ) (nodes : List City)
    (choose : AntState → City) : Nat → AntState → AntState
  | 0, s => s
  | k + 1, s => run d nodes choose (solveIterate d nodes choose k s)

/-- Distance table of the two-city witness instance: every edge has length 1. -/
def dW : City → City → ℚ := fun _ _ => 1

/-- Deterministic selection oracle of the witness instance on nodes [0, 1]:
pick 0 when it is unvisited, otherwise 1. -/
def chooseW : AntState → City := fun s =>
  if 0 ∉ s.visited_locations then 0 else 1

/-- Completed ant state used by the C9 witness. -/
def sW : AntState :=
  { current_location := 1
    traveled_distance := 5
    tour := [0, 1]
    visited_locations := {0, 1} }

/-- Parameters stored by AntColony.__init__ (ant-colony.py lines 15-20). -/
structure ColonyParams where
  ant_population : ℤ
  iterations : ℤ
  alpha : ℚ
  beta : ℚ
  rho : ℚ
deriving DecidableEq

/-- AntColony.__init__ (ant-colony.py lines 15-38): the constructor stores its
five parameters and builds the environment; it contains no validation of any
parameter, so as a fallible constructor it succeeds on every input. -/
def antColonyInit (ant_population iterations : ℤ) (alpha beta rho : ℚ) :
    Except String ColonyParams :=
  Except.ok ⟨ant_population, iterations, alpha, beta, rho⟩

/-- All-zero pheromone map used by concrete witnesses. -/
def pmW : PheromoneMap := fun _ => 0

/-- Distance table of the 4-city unit-square witness instance (cities 0..3 in
perimeter order): adjacent cities at distance 1, diagonal pairs at 2. -/
def dSquare : City → City → ℚ := fun i j =>
  if i = j then 0 else if (i + j) % 2 = 0 then 2 else 1

theorem pythonRound_ge_floor (q : ℚ) : ⌊q⌋ ≤ pythonRound q := by
  unfold pythonRound
  split
  · exact le_refl _
  · split
    · exact Int.le.intro 1 rfl
    · split
      · exact le_refl _
      · exact Int.le.intro 1 rfl

theorem pythonRound_gt (q : ℚ) : q - 1 < (pythonRound q : ℚ) := by
  have h1 : q - 1 < (⌊q⌋ : ℚ) := by
    have := Int.sub_one_lt_floor q
    linarith
  have h2 : (⌊q⌋ : ℚ) ≤ (pythonRound q : ℚ) := by
    exact_mod_cast pythonRound_ge_floor q
  linarith

/-- The round-then-correct step never underestimates its real-valued input. -/
theorem attDist_ge (sqrtF : ℚ → ℚ) (coords : City → ℚ × ℚ) (i j : City) :
    sqrtF ((((coords i).1 - (coords j).1) ^ 2 +
      ((coords i).2 - (coords j).2) ^ 2) / 10) ≤ (attDist sqrtF coords i j : ℚ) := by
  unfold attDist
  set r := sqrtF ((((coords i).1 - (coords j).1) ^ 2 +
    ((coords i).2 - (coords j).2) ^ 2) / 10) with hr
  simp only
  split
  · push_cast
    have := pythonRound_gt r
    linarith
  · linarith [not_lt.mp (by assumption : ¬ (pythonRound r : ℚ) < r)]

theorem dictGet_append_some (l1 l2 : List ((City × City) × ℤ)) (key : City × City)
    (v : ℤ) (h : dictGet l1 key = some v) : dictGet (l1 ++ l2) key = some v := by
  induction l1 with
  | nil => simp [dictGet] at h
  | cons hd tl ih =>
    obtain ⟨k, w⟩ := hd
    by_cases hk : k = key
    · simp only [dictGet, hk, if_pos] at h ⊢
      simpa using h
    · simp only [dictGet, hk, if_neg, not_false_iff, List.cons_append] at h ⊢
      exact ih h

theorem dictGet_append_none (l1 l2 : List ((City × City) × ℤ)) (key : City × City)
    (h : dictGet l1 key = none) : dictGet (l1 ++ l2) key = dictGet l2 key := by
  induction l1 with
  | nil => rfl
  | cons hd tl ih =>
    obtain ⟨k, w⟩ := hd
    by_cases hk : k = key
    · simp [dictGet, hk] at h
    · simp only [dictGet, hk, if_neg, not_false_iff, List.cons_append] at h ⊢
      exact ih h

theorem dictGet_block (i : City) (att : City → City → ℤ) (inner : List City)
    (p q : City) :
    dictGet (inner.map fun j => ((i, j), att i j)) (p, q) =
      if i = p ∧ q ∈ inner then some (att p q) else none := by
  induction inner with
  | nil => simp [dictGet]
  | cons hd tl ih =>
    by_cases hip : i = p
    · subst hip
      by_cases hq : hd = q
      · subst hq
        simp [dictGet]
      · simp only [List.map_cons, dictGet, ih]
        have : ¬ ((i, hd) = (i, q)) := by simp [hq]
        rw [if_neg this]
        by_cases hmem : q ∈ tl
        · simp [hmem, Ne.symm hq]
        · simp [hmem, Ne.symm hq]
    · simp only [List.map_cons, dictGet, ih]
      have : ¬ ((i, hd) = (p, q)) := by simp [hip]
      rw [if_neg this]
      simp [hip]

theorem dictGet_flat (outer inner : List City) (att : City → City → ℤ)
    (p q : City) :
    dictGet (outer.flatMap fun i =>
        ((inner.filter fun j => i ≠ j).map fun j => ((i, j), att i j))) (p, q) =
      if p ∈ outer ∧ q ∈ inner ∧ p ≠ q then some (att p q) else none := by
  induction outer with
  | nil => simp [dictGet]
  | cons hd tl ih =>
    rw [List.flatMap_cons]
    have hblock := dictGet_block hd att (inner.filter fun j => hd ≠ j) p q
    by_cases hcond : hd = p ∧ q ∈ inner.filter fun j => hd ≠ j
    · obtain ⟨hp, hq⟩ := hcond
      subst hp
      have hq' := List.of_mem_filter hq
      have hqmem := List.mem_of_mem_filter hq
      simp only [decide_eq_true_eq] at hq'
      rw [if_pos ⟨rfl, hq⟩] at hblock
      rw [dictGet_append_some _ _ _ _ hblock,
        if_pos ⟨List.mem_cons_self hd tl, hqmem, hq'⟩]
    · rw [if_neg hcond] at hblock
      rw [dictGet_append_none _ _ _ hblock, ih]
      by_cases hp : hd = p
      · subst hp
        have hno : ¬ (q ∈ inner ∧ hd ≠ q) := by
          intro ⟨hmem, hne⟩
          exact hcond ⟨rfl, List.mem_filter.mpr ⟨hmem, by simpa using hne⟩⟩
        rw [if_neg (by tauto), if_neg (by tauto)]
      · have hmemiff : (p ∈ hd :: tl) ↔ (p ∈ tl) := by
          constructor
          · intro h
            rcases List.mem_cons.mp h with h1 | h1
            · exact absurd h1.symm hp
            · exact h1
          · exact fun h => List.mem_cons_of_mem hd h
        by_cases hrest : p ∈ tl ∧ q ∈ inner ∧ p ≠ q
        · rw [if_pos hrest, if_pos ⟨hmemiff.mpr hrest.1, hrest.2⟩]
        · rw [if_neg hrest, if_neg (by rw [hmemiff]; exact hrest)]

/-- Characterization of the distance dictionary: the ordered pair (p, q) is a
key exactly when both components are nodes and they differ, and its value is
the ATT distance. -/
theorem dictGet_buildDistances (nodes : List City) (att : City → City → ℤ)
    (p q : City) :
    dictGet (buildDistances nodes att) (p, q) =
      if p ∈ nodes ∧ q ∈ nodes ∧ p ≠ q then some (att p q) else none :=
  dictGet_flat nodes nodes att p q

theorem depositEdge_apply (pm : PheromoneMap) (e : City × City) (delta : ℚ)
    (f : City × City) :
    depositEdge pm e delta f =
      pm f + ((if f = e then 1 else 0) + (if f = (e.2, e.1) then 1 else 0)) * delta := by
  unfold depositEdge
  split_ifs <;> ring

theorem count_cons_cast (f hd : City × City) (tl : List (City × City)) :
    (((hd :: tl).count f : ℚ)) = (tl.count f : ℚ) + (if f = hd then 1 else 0) := by
  rw [List.count_cons]
  by_cases h : f = hd
  · simp [h]
  · have h' : ¬ hd = f := fun hc => h hc.symm
    simp [h, h']

theorem swap_eq_iff (f hd : City × City) : f = (hd.2, hd.1) ↔ (f.2, f.1) = hd := by
  obtain ⟨a, b⟩ := f
  obtain ⟨c, d⟩ := hd
  simp only [Prod.mk.injEq]
  tauto

theorem foldl_depositEdge_apply (pairs : List (City × City)) (pm : PheromoneMap)
    (delta : ℚ) (f : City × City) :
    pairs.foldl (fun m e => depositEdge m e delta) pm f =
      pm f + ((pairs.count f : ℚ) + (pairs.count (f.2, f.1) : ℚ)) * delta := by
  induction pairs generalizing pm with
  | nil => simp
  | cons hd tl ih =>
    rw [List.foldl_cons, ih, depositEdge_apply, count_cons_cast, count_cons_cast]
    by_cases h1 : f = hd <;> by_cases h2 : (f.2, f.1) = hd
    · rw [if_pos h1, if_pos ((swap_eq_iff f hd).mpr h2), if_pos h2]
      ring
    · rw [if_pos h1, if_neg (fun hcon => h2 ((swap_eq_iff f hd).mp hcon)), if_neg h2]
      ring
    · rw [if_neg h1, if_pos ((swap_eq_iff f hd).mpr h2), if_pos h2]
      ring
    · rw [if_neg h1, if_neg (fun hcon => h2 ((swap_eq_iff f hd).mp hcon)), if_neg h2]
      ring

theorem depositLoop_apply (batch : List (List City × ℚ)) (m : PheromoneMap)
    (e : City × City) :
    batch.foldl (fun m2 tl => depositTour m2 tl.1 tl.2) m e = m e + totalDeposit batch e := by
  induction batch generalizing m with
  | nil => simp [totalDeposit]
  | cons hd tl ih =>
    rw [List.foldl_cons, ih]
    unfold totalDeposit depositTour
    rw [List.map_cons, List.sum_cons, foldl_depositEdge_apply]
    ring

/-- Pointwise closed form of the pheromone update: evaporation applied to the
previous value, plus the multiplicity-weighted deposits of the batch. -/
theorem update_pheromone_map_apply (pm : PheromoneMap) (rho : ℚ)
    (batch : List (List City × ℚ)) (e : City × City) :
    update_pheromone_map pm rho batch e = (1 - rho) * pm e + totalDeposit batch e :=
  depositLoop_apply batch (fun f => (1 - rho) * pm f) e

/-- With every tour length nonzero the fallible update agrees with the total
one: the division never raises and the deposits coincide. -/
theorem updateLoopE_ok (batch : List (List City × ℚ)) (m : PheromoneMap)
    (h : ∀ p ∈ batch, p.2 ≠ 0) :
    updateLoopE batch m =
      Except.ok (batch.foldl (fun m2 tl => depositTour m2 tl.1 tl.2) m) := by
  induction batch generalizing m with
  | nil => rfl
  | cons hd tl ih =>
    obtain ⟨tour, tourLength⟩ := hd
    have hne : tourLength ≠ 0 := h (tour, tourLength) (List.mem_cons_self _ _)
    unfold updateLoopE pyDiv
    rw [if_neg hne]
    simp only [List.foldl_cons]
    rw [ih _ (fun p hp => h p (List.mem_cons_of_mem _ hp))]
    unfold depositTour
    rw [one_div]

theorem pathDistance_nil (d : City → City → ℚ) : pathDistance d [] = 0 := rfl

theorem pathDistance_single (d : City → City → ℚ) (a : City) :
    pathDistance d [a] = 0 := rfl

theorem pathDistance_cons_cons (d : City → City → ℚ) (a b : City)
    (rest : List City) :
    pathDistance d (a :: b :: rest) = d a b + pathDistance d (b :: rest) := rfl

theorem pathDistance_concat (d : City → City → ℚ) (t : List City) (c x : City)
    (h : t.getLast? = some c) :
    pathDistance d (t ++ [x]) = pathDistance d t + d c x := by
  induction t with
  | nil => simp at h
  | cons a tl ih =>
    cases tl with
    | nil =>
      simp only [List.getLast?_singleton, Option.some.injEq] at h
      subst h
      simp [pathDistance]
    | cons b rest =>
      rw [List.getLast?_cons_cons] at h
      have h2 := ih h
      simp only [List.cons_append] at h2 ⊢
      simp only [pathDistance_cons_cons]
      rw [h2]
      ring

theorem antInv_card_le (d : City → City → ℚ) (nodes : List City) (s : AntState)
    (hInv : AntInv d nodes s) (hnodes : nodes.Nodup) :
    s.visited_locations.card ≤ nodes.length := by
  obtain ⟨-, -, hsub, hvis, -, -⟩ := hInv
  rw [hvis]
  calc s.tour.toFinset.card ≤ nodes.toFinset.card := by
        apply Finset.card_le_card
        intro c hc
        rw [List.mem_toFinset] at hc
        rw [List.mem_toFinset]
        exact hsub c hc
    _ = nodes.length := List.toFinset_card_of_nodup hnodes

theorem visit_fresh (d : City → City → ℚ) (nodes : List City) (s : AntState)
    (x : City) (hInv : AntInv d nodes s) (hx : x ∈ nodes)
    (hxv : x ∉ s.visited_locations) :
    AntInv d nodes (visit d s x) ∧
      (visit d s x).tour = s.tour ++ [x] ∧
      (visit d s x).visited_locations.card = s.visited_locations.card + 1 := by
  obtain ⟨hne, hnodup, hsub, hvis, hlast, htrav⟩ := hInv
  have hxtour : x ∉ s.tour := by
    intro hmem
    apply hxv
    rw [hvis, List.mem_toFinset]
    exact hmem
  have hcur : s.current_location ∈ s.tour := by
    have hmemo : s.current_location ∈ s.tour.getLast? := Option.mem_def.mpr hlast
    obtain ⟨hne2, heq⟩ := List.mem_getLast?_eq_getLast hmemo
    rw [heq]
    exact List.getLast_mem hne2
  have hxcur : x ≠ s.current_location := fun hc => hxtour (hc ▸ hcur)
  unfold visit
  rw [if_pos hxcur]
  refine ⟨⟨?_, ?_, ?_, ?_, ?_, ?_⟩, rfl, ?_⟩
  · simp
  · rw [List.nodup_append]
    refine ⟨hnodup, List.nodup_singleton x, ?_⟩
    intro c hc hcx
    rw [List.mem_singleton] at hcx
    exact hxtour (hcx ▸ hc)
  · intro c hc
    rcases List.mem_append.mp hc with h | h
    · exact hsub c h
    · rw [List.mem_singleton] at h
      exact h ▸ hx
  · rw [hvis, List.toFinset_append]
    have : s.tour.toFinset ∪ ({x} : Finset City) = insert x s.tour.toFinset := by
      ext c
      simp [or_comm]
    simp [this]
  · rw [List.getLast?_append_cons]
    rfl
  · rw [pathDistance_concat d s.tour s.current_location x hlast, htrav]
  · exact Finset.card_insert_of_not_mem hxv

theorem runLoop_spec (d : City → City → ℚ) (nodes : List City)
    (choose : AntState → City) (hch : ChooseUnvisited nodes choose)
    (hnodes : nodes.Nodup) :
    ∀ (fuel : Nat) (s : AntState), AntInv d nodes s →
      AntInv d nodes (runLoop d nodes choose fuel s) ∧
        (∃ ext, (runLoop d nodes choose fuel s).tour = s.tour ++ ext) ∧
        min (s.visited_locations.card + fuel) nodes.length ≤
          (runLoop d nodes choose fuel s).visited_locations.card := by
  intro fuel
  induction fuel with
  | zero =>
    intro s hInv
    refine ⟨hInv, ⟨[], by simp [runLoop]⟩, ?_⟩
    show min (s.visited_locations.card + 0) nodes.length ≤
      (runLoop d nodes choose 0 s).visited_locations.card
    simp only [runLoop]
    omega
  | succ fuel ih =>
    intro s hInv
    unfold runLoop
    by_cases hcard : s.visited_locations.card < nodes.length
    · rw [if_pos hcard]
      have hex : ∃ x ∈ nodes, x ∉ s.visited_locations := by
        by_contra hno
        push_neg at hno
        have hsub2 : nodes.toFinset ⊆ s.visited_locations := by
          intro c hc
          exact hno c (List.mem_toFinset.mp hc)
        have hcle := Finset.card_le_card hsub2
        rw [List.toFinset_card_of_nodup hnodes] at hcle
        omega
      obtain ⟨hcx, hcxv⟩ := hch s hex
      obtain ⟨hInv2, htour2, hcard2⟩ := visit_fresh d nodes s (choose s) hInv hcx hcxv
      obtain ⟨hInv3, ⟨ext, hext⟩, hge⟩ := ih (visit d s (choose s)) hInv2
      refine ⟨hInv3, ⟨[choose s] ++ ext, by rw [hext, htour2]; simp⟩, ?_⟩
      rw [hcard2] at hge
      omega
    · rw [if_neg hcard]
      push_neg at hcard
      exact ⟨hInv, ⟨[], by simp⟩, le_trans (min_le_right _ _) hcard⟩

theorem mkAnt_inv (d : City → City → ℚ) (nodes : List City) (start : City)
    (hstart : start ∈ nodes) : AntInv d nodes (mkAnt start) := by
  refine ⟨by simp [mkAnt], by simp [mkAnt], ?_, by simp [mkAnt], by simp [mkAnt], rfl⟩
  intro c hc
  simp only [mkAnt, List.mem_singleton] at hc
  exact hc ▸ hstart

theorem getLast_ne_headI (l : List City) (hnodup : l.Nodup) (hlen : 2 ≤ l.length)
    (c : City) (hlast : l.getLast? = some c) : c ≠ l.headI := by
  cases l with
  | nil => simp at hlen
  | cons a tl =>
    cases tl with
    | nil => simp at hlen
    | cons b rest =>
      rw [List.getLast?_cons_cons] at hlast
      have hc : c ∈ b :: rest := by
        have hmemo : c ∈ (b :: rest).getLast? := Option.mem_def.mpr hlast
        obtain ⟨hne2, heq⟩ := List.mem_getLast?_eq_getLast hmemo
        rw [heq]
        exact List.getLast_mem hne2
      have ha : a ∉ b :: rest := (List.nodup_cons.mp hnodup).1
      intro hch
      have : c = a := hch
      exact ha (this ▸ hc)

/-- Full behaviour of Ant.run from a fresh starting state: the resulting tour
is a duplicate-free enumeration of all nodes beginning at the start, and the
travelled distance is the path distance plus the closing edge. -/
theorem run_spec (d : City → City → ℚ) (nodes : List City)
    (choose : AntState → City) (start : City) (hch : ChooseUnvisited nodes choose)
    (hnodes : nodes.Nodup) (hn : 2 ≤ nodes.length) (hstart : start ∈ nodes) :
    (run d nodes choose (mkAnt start)).tour.Nodup ∧
      (run d nodes choose (mkAnt start)).tour.toFinset = nodes.toFinset ∧
      (run d nodes choose (mkAnt start)).tour.length = nodes.length ∧
      (run d nodes choose (mkAnt start)).tour.headI = start ∧
      (run d nodes choose (mkAnt start)).visited_locations.card = nodes.length ∧
      (run d nodes choose (mkAnt start)).traveled_distance =
        pathDistance d (run d nodes choose (mkAnt start)).tour +
          d ((run d nodes choose (mkAnt start)).tour.getLastD 0)
            (run d nodes choose (mkAnt start)).tour.headI := by
  have hInv0 : AntInv d nodes (mkAnt start) := mkAnt_inv d nodes start hstart
  have hres : resetIfNeeded (mkAnt start) = mkAnt start := by
    unfold resetIfNeeded
    rw [if_neg]
    simp [mkAnt]
  obtain ⟨hInv2, ⟨ext, hext⟩, hge⟩ :=
    runLoop_spec d nodes choose hch hnodes nodes.length (mkAnt start) hInv0
  set s2 := runLoop d nodes choose nodes.length (mkAnt start) with hs2
  have hcard0 : (mkAnt start).visited_locations.card = 1 := by simp [mkAnt]
  have hcard2 : s2.visited_locations.card = nodes.length := by
    have hle := antInv_card_le d nodes s2 hInv2 hnodes
    rw [hcard0] at hge
    omega
  obtain ⟨hne2, hnodup2, hsub2, hvis2, hlast2, htrav2⟩ := hInv2
  have hfin : s2.tour.toFinset = nodes.toFinset := by
    apply Finset.eq_of_subset_of_card_le
    · intro c hc
      rw [List.mem_toFinset] at hc
      rw [List.mem_toFinset]
      exact hsub2 c hc
    · rw [List.toFinset_card_of_nodup hnodes, ← hvis2, hcard2]
  have hlen2 : s2.tour.length = nodes.length := by
    rw [← List.toFinset_card_of_nodup hnodup2, hfin,
      List.toFinset_card_of_nodup hnodes]
  have hhead2 : s2.tour.headI = start := by
    rw [hext]
    simp [mkAnt]
  have hlastne : s2.current_location ≠ s2.tour.headI := by
    apply getLast_ne_headI s2.tour hnodup2 (by omega) s2.current_location hlast2
  have hrun : run d nodes choose (mkAnt start) = closeTour d s2 := by
    unfold run
    rw [hres, ← hs2]
  have hclose : closeTour d s2 =
      { s2 with traveled_distance :=
          s2.traveled_distance + d s2.current_location s2.tour.headI } := by
    unfold closeTour
    rw [if_pos hlastne]
  have hlastD : s2.tour.getLastD 0 = s2.current_location := by
    rw [List.getLastD_eq_getLast?, hlast2]
    rfl
  rw [hrun, hclose]
  refine ⟨hnodup2, hfin, hlen2, hhead2, hcard2, ?_⟩
  simp only
  rw [htrav2, hlastD]

theorem run_of_completed (d : City → City → ℚ) (nodes : List City)
    (choose : AntState → City) (s : AntState) (h : 1 < s.visited_locations.card) :
    run d nodes choose s = run d nodes choose (mkAnt s.tour.headI) := by
  unfold run
  have h1 : resetIfNeeded s = mkAnt s.tour.headI := by
    unfold resetIfNeeded
    rw [if_pos h]
  have h2 : resetIfNeeded (mkAnt s.tour.headI) = mkAnt s.tour.headI := by
    unfold resetIfNeeded
    rw [if_neg]
    simp [mkAnt]
  rw [h1, h2]

theorem solveIterate_start (d : City → City → ℚ) (nodes : List City)
    (choose : AntState → City) (start : City) (hch : ChooseUnvisited nodes choose)
    (hnodes : nodes.Nodup) (hn : 2 ≤ nodes.length) (hstart : start ∈ nodes) :
    ∀ k : Nat, (solveIterate d nodes choose k (mkAnt start)).tour.headI = start ∧
      (solveIterate d nodes choose k (mkAnt start) = mkAnt start ∨
        1 < (solveIterate d nodes choose k (mkAnt start)).visited_locations.card) := by
  intro k
  induction k with
  | zero => exact ⟨by simp [solveIterate, mkAnt], Or.inl rfl⟩
  | succ k ih =>
    obtain ⟨hhead, hdisj⟩ := ih
    have hfresh := run_spec d nodes choose start hch hnodes hn hstart
    have hrun : run d nodes choose (solveIterate d nodes choose k (mkAnt start)) =
        run d nodes choose (mkAnt start) := by
      rcases hdisj with heq | hgt
      · rw [heq]
      · rw [run_of_completed d nodes choose _ hgt, hhead]
    constructor
    · show (run d nodes choose (solveIterate d nodes choose k (mkAnt start))).tour.headI = start
      rw [hrun]
      exact hfresh.2.2.2.1
    · right
      show 1 < (run d nodes choose (solveIterate d nodes choose k (mkAnt start))).visited_locations.card
      rw [hrun, hfresh.2.2.2.2.1]
      omega

/-- C1: For every n-city instance (n at least 2), every tour returned by
Ant.run from a fresh start contains each city exactly once, has length n,
and the returned total distance equals the sum of the distances between
consecutive tour cities plus the closing edge from the last city back to the
first. -/
theorem ant_run_tour_correct (d : City → City → ℚ) (nodes : List City)
    (choose : AntState → City) (start : City) (hch : ChooseUnvisited nodes choose)
    (hnodes : nodes.Nodup) (hn : 2 ≤ nodes.length) (hstart : start ∈ nodes) :
    (∀ c ∈ nodes, (run d nodes choose (mkAnt start)).tour.count c = 1) ∧
      (run d nodes choose (mkAnt start)).tour.length = nodes.length ∧
      (run d nodes choose (mkAnt start)).traveled_distance =
        pathDistance d (run d nodes choose (mkAnt start)).tour +
          d ((run d nodes choose (mkAnt start)).tour.getLastD 0)
            (run d nodes choose (mkAnt start)).tour.headI := by
  obtain ⟨hnodup, hfin, hlen, hhead, hcard, hdist⟩ :=
    run_spec d nodes choose start hch hnodes hn hstart
  refine ⟨?_, hlen, hdist⟩
  intro c hc
  apply List.count_eq_one_of_mem hnodup
  rw [← List.mem_toFinset, hfin, List.mem_toFinset]
  exact hc

theorem chooseW_spec : ChooseUnvisited [0, 1] chooseW := by
  intro s hex
  obtain ⟨x, hx, hxv⟩ := hex
  unfold chooseW
  by_cases h0 : (0 : City) ∈ s.visited_locations
  · rw [if_neg (by simpa using h0)]
    refine ⟨by simp, ?_⟩
    have hx1 : x = 1 := by
      rcases List.mem_cons.mp hx with h | h
      · exact absurd h0 (h ▸ hxv)
      · simpa using h
    exact hx1 ▸ hxv
  · rw [if_pos h0]
    exact ⟨by simp, h0⟩

/-- Witness for C1 on the concrete two-city instance. -/
theorem ant_run_tour_correct_witness :
    (∀ c ∈ [0, 1], (run dW [0, 1] chooseW (mkAnt 0)).tour.count c = 1) ∧
      (run dW [0, 1] chooseW (mkAnt 0)).tour.length = [0, 1].length ∧
      (run dW [0, 1] chooseW (mkAnt 0)).traveled_distance =
        pathDistance dW (run dW [0, 1] chooseW (mkAnt 0)).tour +
          dW ((run dW [0, 1] chooseW (mkAnt 0)).tour.getLastD 0)
            (run dW [0, 1] chooseW (mkAnt 0)).tour.headI :=
  ant_run_tour_correct dW [0, 1] chooseW 0 chooseW_spec (by decide) (by decide)
    (by decide)

/-- C9: Ant.run resets the per-ant state to exactly (current location =
tour[0], visited = singleton tour[0], tour = [tour[0]], distance = 0) before
constructing a new tour; running from any completed state equals running from
that fresh reset state; and across every iteration of the solve loop the
starting city tour[0] fixed before the loop is preserved unchanged. -/
theorem ant_run_reset_and_fixed_start (d : City → City → ℚ) (nodes : List City)
    (choose : AntState → City) (start : City) (hch : ChooseUnvisited nodes choose)
    (hnodes : nodes.Nodup) (hn : 2 ≤ nodes.length) (hstart : start ∈ nodes) :
    (∀ s : AntState, 1 < s.visited_locations.card →
        resetIfNeeded s = mkAnt s.tour.headI ∧
          run d nodes choose s = run d nodes choose (mkAnt s.tour.headI)) ∧
      ∀ k : Nat, (solveIterate d nodes choose k (mkAnt start)).tour.headI = start := by
  constructor
  · intro s hs
    constructor
    · unfold resetIfNeeded
      rw [if_pos hs]
    · exact run_of_completed d nodes choose s hs
  · intro k
    exact (solveIterate_start d nodes choose start hch hnodes hn hstart k).1

/-- Witness for C9 on the concrete two-city instance. -/
theorem ant_run_reset_and_fixed_start_witness :
    (resetIfNeeded sW = mkAnt sW.tour.headI ∧
        run dW [0, 1] chooseW sW = run dW [0, 1] chooseW (mkAnt sW.tour.headI)) ∧
      (solveIterate dW [0, 1] chooseW 3 (mkAnt 0)).tour.headI = 0 :=
  ⟨(ant_run_reset_and_fixed_start dW [0, 1] chooseW 0 chooseW_spec (by decide)
      (by decide) (by decide)).1 sW (by decide),
    (ant_run_reset_and_fixed_start dW [0, 1] chooseW 0 chooseW_spec (by decide)
      (by decide) (by decide)).2 3⟩

/-- C4: For every pair of distinct cities the stored integer ATT distance is
at least the real-valued pseudo-Euclidean value: the round-then-correct step
never underestimates, whatever value math.sqrt returns. -/
theorem att_distance_never_underestimates (sqrtF : ℚ → ℚ)
    (coords : City → ℚ × ℚ) (i j : City) (_hij : i ≠ j) :
    sqrtF ((((coords i).1 - (coords j).1) ^ 2 +
        ((coords i).2 - (coords j).2) ^ 2) / 10) ≤
      (attDist sqrtF coords i j : ℚ) :=
  attDist_ge sqrtF coords i j

/-- Witness for C4 at a concrete pair of coordinates with sqrtF = id. -/
theorem att_distance_never_underestimates_witness :
    id ((((fun c => ((c : ℚ), (0 : ℚ))) 0).1 - ((fun c => ((c : ℚ), (0 : ℚ))) 3).1) ^ 2 +
        (((fun c => ((c : ℚ), (0 : ℚ))) 0).2 - ((fun c => ((c : ℚ), (0 : ℚ))) 3).2) ^ 2) / 10 ≤
      (attDist id (fun c => ((c : ℚ), (0 : ℚ))) 0 3 : ℚ) :=
  att_distance_never_underestimates id (fun c => ((c : ℚ), (0 : ℚ))) 0 3 (by decide)

/-- C8: The distance dictionary built at environment construction is
symmetric: for every pair the stored value at (i, j) equals the one at
(j, i), because the squared coordinate differences are symmetric. -/
theorem att_distance_symmetric (sqrtF : ℚ → ℚ) (coords : City → ℚ × ℚ)
    (nodes : List City) (i j : City) :
    dictGet (buildDistances nodes (attDist sqrtF coords)) (i, j) =
      dictGet (buildDistances nodes (attDist sqrtF coords)) (j, i) := by
  rw [dictGet_buildDistances, dictGet_buildDistances]
  have hsym : attDist sqrtF coords i j = attDist sqrtF coords j i := by
    simp only [attDist]
    rw [show ((coords i).1 - (coords j).1) ^ 2 + ((coords i).2 - (coords j).2) ^ 2 =
        ((coords j).1 - (coords i).1) ^ 2 + ((coords j).2 - (coords i).2) ^ 2 by ring]
  by_cases h : i ∈ nodes ∧ j ∈ nodes ∧ i ≠ j
  · rw [if_pos h, if_pos ⟨h.2.1, h.1, Ne.symm h.2.2⟩, hsym]
  · rw [if_neg h, if_neg (fun hc => h ⟨hc.2.1, hc.1, Ne.symm hc.2.2⟩)]

/-- C10: Environment.get_distance is total: an unknown city on either side or
a pair of a city with itself reads infinity (top), and every ordered pair of
distinct known cities reads the precomputed ATT integer distance. -/
theorem get_distance_total (sqrtF : ℚ → ℚ) (coords : City → ℚ × ℚ)
    (nodes : List City) :
    (∀ i j : City, (i ∉ nodes ∨ j ∉ nodes ∨ i = j) →
        get_distance nodes (attDist sqrtF coords) i j = ⊤) ∧
      ∀ i j : City, i ∈ nodes → j ∈ nodes → i ≠ j →
        get_distance nodes (attDist sqrtF coords) i j =
          ((attDist sqrtF coords i j : ℤ) : WithTop ℤ) := by
  constructor
  · intro i j h
    unfold get_distance
    rw [dictGet_buildDistances, if_neg (by tauto)]
  · intro i j hi hj hij
    unfold get_distance
    rw [dictGet_buildDistances, if_pos ⟨hi, hj, hij⟩]

/-- Witness for C10 on the concrete instance with nodes [1, 2]. -/
theorem get_distance_total_witness :
    get_distance [1, 2] (attDist id (fun c => ((c : ℚ), (0 : ℚ)))) 1 1 = ⊤ ∧
      get_distance [1, 2] (attDist id (fun c => ((c : ℚ), (0 : ℚ)))) 1 2 =
        ((attDist id (fun c => ((c : ℚ), (0 : ℚ))) 1 2 : ℤ) : WithTop ℤ) :=
  ⟨(get_distance_total id (fun c => ((c : ℚ), (0 : ℚ))) [1, 2]).1 1 1
      (Or.inr (Or.inr rfl)),
    (get_distance_total id (fun c => ((c : ℚ), (0 : ℚ))) [1, 2]).2 1 2
      (by decide) (by decide) (by decide)⟩

/-- C3 counterexample: the constructor succeeds on an invalid configuration
(rho = 2 outside [0,1], population 0, negative iterations) instead of failing
fast, and a distance lookup with the unknown city 7 returns infinity rather
than raising an error. -/
theorem no_fail_fast_counterexample :
    antColonyInit 0 (-1) 1 1 2 = Except.ok ⟨0, -1, 1, 1, 2⟩ ∧
      get_distance [1, 2] (attDist id (fun c => ((c : ℚ), (0 : ℚ)))) 7 1 = ⊤ := by
  constructor
  · rfl
  · unfold get_distance
    rw [dictGet_buildDistances, if_neg (by decide)]

/-- C3 (amended): the program performs no configuration validation —
AntColony.__init__ stores every parameter combination unchanged and
succeeds, and Environment.get_distance answers infinity for unknown cities
instead of raising a descriptive error. -/
theorem no_validation (ant_population iterations : ℤ) (alpha beta rho : ℚ) :
    antColonyInit ant_population iterations alpha beta rho =
        Except.ok ⟨ant_population, iterations, alpha, beta, rho⟩ ∧
      ∀ (nodes : List City) (att : City → City → ℤ) (i j : City),
        i ∉ nodes → get_distance nodes att i j = ⊤ := by
  constructor
  · rfl
  · intro nodes att i j hi
    unfold get_distance
    rw [dictGet_buildDistances, if_neg (by tauto)]

/-- Witness for the amended C3 at a concrete invalid configuration. -/
theorem no_validation_witness :
    antColonyInit 3 (-7) 1 5 (9/4) = Except.ok ⟨3, -7, 1, 5, 9/4⟩ ∧
      get_distance [1, 2] (fun _ _ => 4) 9 1 = ⊤ :=
  ⟨(no_validation 3 (-7) 1 5 (9/4)).1,
    (no_validation 3 (-7) 1 5 (9/4)).2 [1, 2] (fun _ _ => 4) 9 1 (by decide)⟩

theorem totalDeposit_nonneg (batch : List (List City × ℚ)) (e : City × City)
    (hpos : ∀ p ∈ batch, 0 < p.2) : 0 ≤ totalDeposit batch e := by
  unfold totalDeposit
  apply List.sum_nonneg
  intro x hx
  rw [List.mem_map] at hx
  obtain ⟨p, hp, rfl⟩ := hx
  have hL := hpos p hp
  apply mul_nonneg
  · exact add_nonneg (Nat.cast_nonneg _) (Nat.cast_nonneg _)
  · positivity

theorem nnGo_acc_le (d : City → City → ℚ) (hd : ∀ i j, 0 ≤ d i j) :
    ∀ (fuel : Nat) (c : City) (unvisited : List City) (acc : ℚ),
      acc ≤ (nnGo d fuel c unvisited acc).2 := by
  intro fuel
  induction fuel with
  | zero =>
    intro c unvisited acc
    simp [nnGo]
  | succ fuel ih =>
    intro c unvisited acc
    cases unvisited with
    | nil => simp [nnGo]
    | cons x xs =>
      have step := ih (selectMin d c (x :: xs))
        ((x :: xs).erase (selectMin d c (x :: xs)))
        (acc + d c (selectMin d c (x :: xs)))
      calc acc ≤ acc + d c (selectMin d c (x :: xs)) := by
            have := hd c (selectMin d c (x :: xs))
            linarith
        _ ≤ _ := step

theorem nnTourLength_nonneg (d : City → City → ℚ) (nodes : List City)
    (hd : ∀ i j, 0 ≤ d i j) : 0 ≤ nnTourLength d nodes := by
  unfold nnTourLength
  cases nodes with
  | nil => simp
  | cons start rest =>
    have h1 := nnGo_acc_le d hd rest.length start rest 0
    have h2 := hd (nnGo d rest.length start rest 0).1 start
    simp only
    linarith

/-- C5: For every pheromone map with non-negative values, every rho in
[0, 1] (including rho = 1), and every batch of tours with positive lengths,
every value after the evaporate-and-deposit update is still non-negative;
and initialization with a non-negative distance table produces non-negative
values as well. -/
theorem pheromone_nonneg_invariant (pm : PheromoneMap) (rho : ℚ)
    (batch : List (List City × ℚ)) (d : City → City → ℚ) (nodes : List City)
    (hpm : ∀ e, 0 ≤ pm e) (_hrho0 : 0 ≤ rho) (hrho1 : rho ≤ 1)
    (hpos : ∀ p ∈ batch, 0 < p.2) (hd : ∀ i j, 0 ≤ d i j) :
    (∀ e, 0 ≤ update_pheromone_map pm rho batch e) ∧
      ∀ e, 0 ≤ initialize_pheromone_map d nodes e := by
  constructor
  · intro e
    rw [update_pheromone_map_apply]
    have h1 : 0 ≤ (1 - rho) * pm e := mul_nonneg (by linarith) (hpm e)
    have h2 : 0 ≤ totalDeposit batch e := totalDeposit_nonneg batch e hpos
    linarith
  · intro e
    unfold initialize_pheromone_map
    split
    · have hL := nnTourLength_nonneg d nodes hd
      have hn : (0 : ℚ) ≤ nodes.length := by positivity
      have : 0 ≤ (nodes.length : ℚ) * nnTourLength d nodes := mul_nonneg hn hL
      positivity
    · exact le_refl 0

/-- Witness for C5 at rho = 1 with a concrete batch. -/
theorem pheromone_nonneg_invariant_witness :
    (∀ e, 0 ≤ update_pheromone_map pmW 1 [([1, 2], 2)] e) ∧
      ∀ e, 0 ≤ initialize_pheromone_map dSquare [0, 1, 2, 3] e :=
  pheromone_nonneg_invariant pmW 1 [([1, 2], 2)] dSquare [0, 1, 2, 3]
    (fun _ => le_refl 0) (by norm_num) (by norm_num)
    (by
      intro p hp
      rw [List.mem_singleton] at hp
      rw [hp]
      norm_num)
    (by
      intro i j
      unfold dSquare
      split
      · exact le_refl 0
      · split
        · norm_num
        · norm_num)

/-- C2 (amended): after the pheromone update, every ordered edge value equals
(1 - rho) times its previous value plus, for each tour of length L in the
batch, 1/L multiplied by the number of times the tour traverses the edge in
either direction among its cyclic consecutive pairs; evaporation is fully
applied before any deposit, and both directed copies receive each deposit. -/
theorem update_pheromone_map_formula (pm : PheromoneMap) (rho : ℚ)
    (batch : List (List City × ℚ)) (_hpos : ∀ p ∈ batch, 0 < p.2)
    (e : City × City) :
    update_pheromone_map pm rho batch e = (1 - rho) * pm e + totalDeposit batch e :=
  update_pheromone_map_apply pm rho batch e

/-- Witness for the amended C2 on a concrete two-city batch. -/
theorem update_pheromone_map_formula_witness :
    update_pheromone_map pmW 0 [([1, 2], 2)] (1, 2) =
      (1 - 0) * pmW (1, 2) + totalDeposit [([1, 2], 2)] (1, 2) :=
  update_pheromone_map_formula pmW 0 [([1, 2], 2)]
    (by
      intro p hp
      rw [List.mem_singleton] at hp
      rw [hp]
      norm_num)
    (1, 2)

/-- C2 counterexample: the two-city tour [1, 2] of length 2 traverses the
undirected edge between 1 and 2 twice among its cyclic pairs, so the code
deposits 1 = 2 * (1/2) on edge (1, 2), while the per-tour sum worded in the
claim gives only 1/2. -/
theorem update_pheromone_map_spec_counterexample :
    update_pheromone_map pmW 0 [([1, 2], 2)] (1, 2) ≠
      (1 - 0) * pmW (1, 2) + specDeposit [([1, 2], 2)] (1, 2) := by
  have hcp : cyclicPairs [1, 2] = [(1, 2), (2, 1)] := rfl
  have hc1 : List.count ((1 : City), (2 : City)) [((1 : City), (2 : City)), (2, 1)] = 1 := by
    decide
  have hc2 : List.count ((2 : City), (1 : City)) [((1 : City), (2 : City)), (2, 1)] = 1 := by
    decide
  have h1 : totalDeposit [([1, 2], 2)] (1, 2) = 1 := by
    unfold totalDeposit
    simp only [List.map_cons, List.map_nil, List.sum_cons, List.sum_nil, hcp]
    rw [hc1, hc2]
    norm_num
  have h2 : specDeposit [([1, 2], 2)] (1, 2) = 1 / 2 := by
    unfold specDeposit
    simp only [List.map_cons, List.map_nil, List.sum_cons, List.sum_nil, hcp]
    rw [if_pos (Or.inl (by decide))]
    norm_num
  rw [update_pheromone_map_apply, h1, h2]
  simp only [pmW]
  norm_num

theorem updateLoopE_error (batch : List (List City × ℚ))
    (h : ∃ p ∈ batch, p.2 = 0) :
    ∀ m : PheromoneMap, ∃ msg, updateLoopE batch m = Except.error msg := by
  induction batch with
  | nil => simp at h
  | cons hd tl ih =>
    intro m
    obtain ⟨tour, tourLength⟩ := hd
    by_cases hz : tourLength = 0
    · refine ⟨"ZeroDivisionError: float division by zero", ?_⟩
      unfold updateLoopE pyDiv
      rw [if_pos hz]
    · have htl : ∃ p ∈ tl, p.2 = 0 := by
        obtain ⟨p, hp, hp0⟩ := h
        rcases List.mem_cons.mp hp with heq | hmem
        · rw [heq] at hp0
          exact absurd hp0 hz
        · exact ⟨p, hmem, hp0⟩
      obtain ⟨msg, hmsg⟩ := ih htl
        ((cyclicPairs tour).foldl (fun m2 e => depositEdge m2 e (1 / tourLength)) m)
      refine ⟨msg, ?_⟩
      unfold updateLoopE pyDiv
      rw [if_neg hz]
      simp only [one_div]
      rw [← one_div]
      exact hmsg

/-- C7: Feeding the pheromone update a tour of length 0 produces an error
(the Python ZeroDivisionError raised by the delta = 1.0 / tour_length division)
rather than depositing a non-finite value into the map. -/
theorem update_zero_length_errors (pm : PheromoneMap) (rho : ℚ)
    (batch : List (List City × ℚ)) (h : ∃ p ∈ batch, p.2 = 0) :
    ∃ msg, update_pheromone_mapE pm rho batch = Except.error msg :=
  updateLoopE_error batch h (fun e => (1 - rho) * pm e)

/-- Witness for C7 on a concrete zero-length tour. -/
theorem update_zero_length_errors_witness :
    ∃ msg, update_pheromone_mapE pmW 0 [([1, 2], 0)] = Except.error msg :=
  update_zero_length_errors pmW 0 [([1, 2], 0)]
    ⟨([1, 2], 0), List.mem_singleton.mpr rfl, rfl⟩

/-- C6: After initialization every ordered pair of distinct cities carries
the identical positive value 1 / (n * Lnn), with n the city count and Lnn
the greedy nearest-neighbor tour length built from the first node. -/
theorem initialize_pheromone_value (d : City → City → ℚ) (nodes : List City)
    (i j : City) (hi : i ∈ nodes) (hj : j ∈ nodes) (hij : i ≠ j)
    (hL : 0 < nnTourLength d nodes) :
    initialize_pheromone_map d nodes (i, j) =
        1 / (nodes.length * nnTourLength d nodes) ∧
      0 < initialize_pheromone_map d nodes (i, j) := by
  have hval : initialize_pheromone_map d nodes (i, j) =
      1 / (nodes.length * nnTourLength d nodes) := by
    unfold initialize_pheromone_map
    rw [if_pos ⟨hi, hj, hij⟩]
  refine ⟨hval, ?_⟩
  rw [hval]
  have hn : 0 < nodes.length := List.length_pos_of_mem hi
  have hnq : (0 : ℚ) < nodes.length := by exact_mod_cast hn
  have hprod : 0 < (nodes.length : ℚ) * nnTourLength d nodes := mul_pos hnq hL
  positivity

/-- Witness for C6 on the 4-city square instance, whose nearest-neighbor tour
has length 4, giving the initial value 1/16 on every edge. -/
theorem initialize_pheromone_value_witness :
    (initialize_pheromone_map dSquare [0, 1, 2, 3] (0, 2) =
        1 / (([0, 1, 2, 3] : List City).length * nnTourLength dSquare [0, 1, 2, 3]) ∧
      0 < initialize_pheromone_map dSquare [0, 1, 2, 3] (0, 2)) ∧
      nnTourLength dSquare [0, 1, 2, 3] = 4 := by
  have e01 : dSquare 0 1 = 1 := by norm_num [dSquare]
  have e02 : dSquare 0 2 = 2 := by norm_num [dSquare]
  have e03 : dSquare 0 3 = 1 := by norm_num [dSquare]
  have e12 : dSquare 1 2 = 1 := by norm_num [dSquare]
  have e13 : dSquare 1 3 = 2 := by norm_num [dSquare]
  have e23 : dSquare 2 3 = 1 := by norm_num [dSquare]
  have e30 : dSquare 3 0 = 1 := by norm_num [dSquare]
  have s1 : selectMin dSquare 0 [1, 2, 3] = 1 := by
    show List.foldl (fun best y => if dSquare 0 y < dSquare 0 best then y else best)
      1 [2, 3] = 1
    rw [List.foldl_cons, if_neg (by rw [e02, e01]; norm_num)]
    rw [List.foldl_cons, if_neg (by rw [e03, e01]; norm_num)]
    rfl
  have s2 : selectMin dSquare 1 [2, 3] = 2 := by
    show List.foldl (fun best y => if dSquare 1 y < dSquare 1 best then y else best)
      2 [3] = 2
    rw [List.foldl_cons, if_neg (by rw [e13, e12]; norm_num)]
    rfl
  have g3 : nnGo dSquare 3 0 [1, 2, 3] 0 = nnGo dSquare 2 1 [2, 3] (0 + dSquare 0 1) := by
    show nnGo dSquare 2 (selectMin dSquare 0 [1, 2, 3])
        ([1, 2, 3].erase (selectMin dSquare 0 [1, 2, 3]))
        (0 + dSquare 0 (selectMin dSquare 0 [1, 2, 3])) =
      nnGo dSquare 2 1 [2, 3] (0 + dSquare 0 1)
    rw [s1]
    rfl
  have g2 : nnGo dSquare 2 1 [2, 3] (0 + dSquare 0 1) =
      nnGo dSquare 1 2 [3] (0 + dSquare 0 1 + dSquare 1 2) := by
    show nnGo dSquare 1 (selectMin dSquare 1 [2, 3])
        ([2, 3].erase (selectMin dSquare 1 [2, 3]))
        (0 + dSquare 0 1 + dSquare 1 (selectMin dSquare 1 [2, 3])) =
      nnGo dSquare 1 2 [3] (0 + dSquare 0 1 + dSquare 1 2)
    rw [s2]
    rfl
  have g1 : nnGo dSquare 1 2 [3] (0 + dSquare 0 1 + dSquare 1 2) =
      (3, 0 + dSquare 0 1 + dSquare 1 2 + dSquare 2 3) := rfl
  have hnn : nnTourLength dSquare [0, 1, 2, 3] = 4 := by
    show (nnGo dSquare 3 0 [1, 2, 3] 0).2 +
      dSquare (nnGo dSquare 3 0 [1, 2, 3] 0).1 0 = 4
    rw [g3, g2, g1]
    simp only
    rw [e01, e12, e23, e30]
    norm_num
  exact ⟨initialize_pheromone_value dSquare [0, 1, 2, 3] 0 2 (by decide) (by decide)
      (by decide) (by rw [hnn]; norm_num), hnn⟩

end ACO
